import Mathlib

/-!
# Verification of the project-tag-mover note-relocation engine

Shallow embedding of `src/project-tag-mover/main.js`: tag extraction
(frontmatter regex + body token scan), rule resolution (exact rule pass and
tag-prefix fallback), destination-path sanitization, the per-file move
operation, and the batch runner.  Strings are modelled as Lean `String`
(lists of characters; the sources only ever handle ASCII-range text, where
JavaScript UTF-16 indexing and character indexing agree).  The host
application's collaborators (`parseYaml`, the vault adapter's existence
check, `mkdir`, `renameFile`) are external; they are passed in as explicit
parameters so that every failure mode can be exercised.
-/

/-- JavaScript `\s` for the ASCII range (space, tab, newline, carriage
return, vertical tab, form feed). -/
def isWsC (c : Char) : Bool :=
  c = ' ' || c = '\t' || c = '\n' || c = '\r' || c = '\x0b' || c = '\x0c'

/-- Character class of the body-tag regex in `processFile` (word
characters, slash, hyphen): JavaScript `\w` = `[A-Za-z0-9_]`, plus the
`'/'` and `'-'` characters. -/
def isWordC (c : Char) : Bool :=
  c.isAlphanum || c = '_' || c = '/' || c = '-'

/-- JavaScript `s.startsWith(p)` (character-wise). -/
def strStartsWith (s p : String) : Bool :=
  p.toList.isPrefixOf s.toList

/-- JavaScript `s.endsWith(p)` (character-wise). -/
def strEndsWith (s p : String) : Bool :=
  p.toList.reverse.isPrefixOf s.toList.reverse

/-- JavaScript `s.substring(n)` (drop the first `n` characters). -/
def strDrop (s : String) (n : Nat) : String :=
  String.mk (s.toList.drop n)

/-- Character length of a string (JavaScript `s.length` on ASCII text). -/
def strLen (s : String) : Nat :=
  s.toList.length

/-- Remove one leading `#` from a character list if present. -/
def stripHashL (l : List Char) : List Char :=
  match l with
  | c :: t => if c = '#' then t else c :: t
  | [] => []

/-- `String(t).replace(/^#/, "")`: remove one leading `#` if present
(`main.js` lines 157, 182, 186, 199). -/
def stripHash (s : String) : String :=
  String.mk (stripHashL s.toList)

/-- Quote characters stripped by the `moveActiveFile` tag normalization. -/
def isQuoteC (c : Char) : Bool :=
  c = '"' || c = '\''

/-- Leading characters stripped by the `moveActiveFile` tag normalization. -/
def isQuoteHashC (c : Char) : Bool :=
  isQuoteC c || c = '#'

/-- List-level core of the `moveActiveFile` tag normalization: the global
replace removes the leading run of quote and hash characters (the anchored
leading alternative) and the trailing run of quote characters (the anchored
trailing alternative); the second replace removes one more leading `#`. -/
def normalizeTagL (l : List Char) : List Char :=
  stripHashL (((l.dropWhile isQuoteHashC).reverse.dropWhile isQuoteC).reverse)

/-- `String(t).replace(/^["'#]+|["']+$/g, "").replace(/^#/, "")`
(`main.js` line 98): strip the leading run of quote and hash characters,
strip the trailing run of quote characters, then one more leading `#`. -/
def normalizeTag (s : String) : String :=
  String.mk (normalizeTagL s.toList)

/-- Split a character list on `/`. -/
def splitSlash : List Char → List (List Char)
  | [] => [[]]
  | c :: cs =>
    if c = '/' then [] :: splitSlash cs
    else
      match splitSlash cs with
      | h :: t => (c :: h) :: t
      | [] => [[c]]

/-- Rejoin path segments with `/`. -/
def joinSlash : List (List Char) → List Char
  | [] => []
  | [s] => s
  | s :: rest => s ++ '/' :: joinSlash rest

/-- Modelled from the spec: the host's `normalizePath` collaborator (the
`obsidian` module import at `main.js` line 10, not part of this repository's
sources).  Spec §4.3: "Normalize path separators and collapse redundant
segments (equivalent to resolving `.` and redundant slashes) without
touching the filesystem."  Backslashes become `/`, empty segments and `.`
segments are dropped; `..` segments are kept (they are what the explicit
checks in `moveFileToProject` look for). -/
def normalizePath (p : String) : String :=
  let q := p.toList.map (fun c => if c = '\\' then '/' else c)
  let segs := (splitSlash q).filter (fun s => !s.isEmpty && !(s == ['.']))
  String.mk (joinSlash segs)

/-- `targetPath.substring(0, targetPath.lastIndexOf("/"))` (`main.js`
line 252); JavaScript yields `""` when there is no slash. -/
def folderOf (s : String) : String :=
  let l := s.toList
  match l.reverse.findIdx? (fun c => c = '/') with
  | none => ""
  | some i => String.mk (l.take (l.length - 1 - i))

/-- First index at which `pat` occurs as a sublist, if any. -/
def findSub (pat : List Char) : List Char → Option Nat
  | [] => if pat.isEmpty then some 0 else none
  | c :: cs =>
    if pat.isPrefixOf (c :: cs) then some 0
    else (findSub pat cs).map (· + 1)

/-- One backtracking attempt of the frontmatter regex (three dashes, then
`\s*\n`, then a non-greedy capture, then a newline and three dashes) after
the leading dashes: with `n` characters consumed by `\s*` plus the mandatory
`\n`, take the shortest capture up to the next `\n---`. -/
def fmTry (rest : List Char) (n : Nat) : Option (String × String) :=
  match findSub ['\n', '-', '-', '-'] (rest.drop n) with
  | some i =>
    some (String.mk ((rest.drop n).take i), String.mk ((rest.drop n).drop (i + 4)))
  | none => none

/-- Candidate lengths for `\s*` plus its closing `\n`, longest first (the
greedy order in which the regex engine backtracks): every positive `n`
within the whitespace run of `rest` such that the `n`-th character is the
newline consumed by the mandatory `\n`. -/
def fmCandidates (rest : List Char) : List Nat :=
  let w := (rest.takeWhile isWsC).length
  ((List.range (w + 1)).filter
    (fun n => decide (0 < n) && (rest.get? (n - 1) == some '\n'))).reverse

/-- The frontmatter match of `main.js` line 150: the regex anchored at the
start of the text, made of three dashes, `\s*\n`, a non-greedy multi-line
capture, then a newline followed by three dashes.  On success returns the
captured frontmatter block and the text after the whole match (the body,
`content.slice(fmMatch[0].length)`). -/
def fmMatch (content : String) : Option (String × String) :=
  let l := content.toList
  if l.take 3 = ['-', '-', '-'] then
    (fmCandidates (l.drop 3)).findSome? (fmTry (l.drop 3))
  else none

/-- One anchored attempt of the body-tag token (the part of the regex of
`main.js` line 167 after its `(?:^|\s)` boundary): an optional `#`, then a
nonempty maximal run of word/slash/hyphen characters which must be followed
by whitespace or the end of the input (a lookahead).  Returns the captured
run and the unconsumed rest (the lookahead consumes nothing). -/
def matchCore (l : List Char) : Option (String × List Char) :=
  let l1 := match l with
    | '#' :: t => t
    | _ => l
  let run := l1.takeWhile isWordC
  match run with
  | [] => none
  | _ :: _ =>
    match l1.drop run.length with
    | [] => some (String.mk run, [])
    | c :: cs => if isWsC c then some (String.mk run, c :: cs) else none

/-- The `regex.exec` loop of `main.js` lines 167-171 after the first
attempt: every later match must begin with a `\s` boundary character.  The
fuel argument only bounds the recursion; each step either advances one
character or consumes a whole match, so fuel equal to the list length never
runs out. -/
def scanLoop : Nat → List Char → List String
  | 0, _ => []
  | _ + 1, [] => []
  | f + 1, c :: cs =>
    if isWsC c then
      match matchCore cs with
      | some (t, rest) => t :: scanLoop f rest
      | none => scanLoop f cs
    else scanLoop f cs

/-- Body-tag extraction: the global regex of `main.js` line 167 (a
`(?:^|\s)` boundary, an optional `#`, a captured word/slash/hyphen run, a
whitespace-or-end lookahead) run with `regex.exec` over the body (lines
167-171).  The first attempt may use the zero-width `^` anchor; on its
failure and at all later positions the `\s` branch of the boundary
applies. -/
def bodyTags (s : String) : List String :=
  let l := s.toList
  match matchCore l with
  | some (t, rest) => t :: scanLoop rest.length rest
  | none => scanLoop l.length l

/-- Outcome of the external `parseYaml` collaborator applied to the
frontmatter block, restricted to the `tags` key as `processFile` reads it:
missing/falsy (`if (fmObj && fmObj.tags)`), a scalar, a sequence (elements
already coerced to strings, mirroring `String(t)`), or a parse failure
(the `catch` branch). -/
inductive FmTags
  | absent
  | scalar (s : String)
  | sequence (l : List String)
  | parseError
deriving DecidableEq

/-- Frontmatter tag list pushed by `processFile` lines 154-157: a scalar is
wrapped into a one-element array, and every element gets one leading `#`
stripped; parse failure and absence contribute nothing. -/
def fmTagList : FmTags → List String
  | FmTags.sequence l => l.map stripHash
  | FmTags.scalar s => [stripHash s]
  | _ => []

/-- Tag extraction of `processFile` (`main.js` lines 147-171): frontmatter
tags first (when the frontmatter regex matches, via the external parser),
then body tags scanned from the remaining text; no deduplication. -/
def extractTags (parse : String → FmTags) (content : String) : List String :=
  match fmMatch content with
  | some (block, rest) => fmTagList (parse block) ++ bodyTags rest
  | none => bodyTags content

/-- One entry of `settings.tagRules`. -/
structure TagRule where
  tagPattern : String
  destination : String
deriving DecidableEq

/-- The plugin settings consumed by the core logic. -/
structure Config where
  tagPrefix : String
  rootFolder : String
  notesFolder : String
  tagRules : List TagRule

/-- `DEFAULT_SETTINGS` (`main.js` lines 14-28). -/
def DEFAULT_SETTINGS : Config :=
  { tagPrefix := "#pjt/"
    rootFolder := "03_project"
    notesFolder := "02/notes"
    tagRules := [⟨"work/urgent", "01_inbox/urgent"⟩,
                 ⟨"personal/health", "04_personal/health"⟩] }

/-- `this.settings.tagRules.find(r => r.tagPattern.replace(/^#/, "") ===
normalizedPattern)` with `normalizedPattern = pattern.replace(/^#/, "")`
(`main.js` lines 182-187). -/
def findRuleFor (rules : List TagRule) (pat : String) : Option TagRule :=
  rules.find? (fun r => stripHash r.tagPattern == stripHash pat)

/-- Pass 1 of `processFile` (lines 180-196): iterate the candidate tags in
order; the first tag for which some rule matches yields that rule's
destination. -/
def ruleScan (rules : List TagRule) : List String → Option String
  | [] => none
  | t :: ts =>
    match findRuleFor rules t with
    | some r => some r.destination
    | none => ruleScan rules ts

/-- Rule resolution of `processFile` (lines 180-211): pass 1 (exact rule
match, tags outer / rules inner) returns `(destination, isFullPath = true)`;
otherwise pass 2 takes the first tag starting with the normalized
`tagPrefix` and returns the tag text after it with `isFullPath = false`. -/
def resolve (rules : List TagRule) (tagPre : String) (tags : List String) :
    Option (String × Bool) :=
  match ruleScan rules tags with
  | some dest => some (dest, true)
  | none =>
    let pjt := stripHash tagPre
    match tags.find? (fun t => strStartsWith t pjt) with
    | some t => some (strDrop t (strLen pjt), false)
    | none => none

/-- The vault collaborators used by `moveFileToProject`: the adapter's
existence check, recursive directory creation, and `renameFile`.  Each may
fail (throw), modelled by `Except`. -/
structure Env where
  pathExists : String → Except Unit Bool
  mkdir : String → Except Unit Unit
  rename : String → Except Unit Unit

/-- Filesystem requests issued to the collaborators, in order. -/
inductive FsReq
  | existsReq (p : String)
  | mkdirReq (p : String)
  | renameReq (p : String)
deriving DecidableEq

/-- The `try` block of `moveFileToProject` (`main.js` lines 257-270): when
the folder path is nonempty and does not exist, create it; then rename.
Returns the outcome together with the requests issued before (and
including) the failing one. -/
def tryBlock (env : Env) (folderPath targetPath : String) :
    Except Unit Unit × List FsReq :=
  if folderPath ≠ "" then
    match env.pathExists folderPath with
    | Except.error e => (Except.error e, [FsReq.existsReq folderPath])
    | Except.ok true =>
      (match env.rename targetPath with
       | Except.ok _ => (Except.ok (), [FsReq.existsReq folderPath, FsReq.renameReq targetPath])
       | Except.error e => (Except.error e, [FsReq.existsReq folderPath, FsReq.renameReq targetPath]))
    | Except.ok false =>
      match env.mkdir folderPath with
      | Except.error e => (Except.error e, [FsReq.existsReq folderPath, FsReq.mkdirReq folderPath])
      | Except.ok _ =>
        match env.rename targetPath with
        | Except.ok _ =>
          (Except.ok (), [FsReq.existsReq folderPath, FsReq.mkdirReq folderPath,
                          FsReq.renameReq targetPath])
        | Except.error e =>
          (Except.error e, [FsReq.existsReq folderPath, FsReq.mkdirReq folderPath,
                            FsReq.renameReq targetPath])
  else
    match env.rename targetPath with
    | Except.ok _ => (Except.ok (), [FsReq.renameReq targetPath])
    | Except.error e => (Except.error e, [FsReq.renameReq targetPath])

/-- The full target path of `moveFileToProject` (lines 232-241): the
sanitized segment joined with the root folder (unless `isFullPath`) and the
file name, the whole thing normalized again. -/
def plannedTarget (name path root : String) (ifp : Bool) : String :=
  normalizePath (if ifp then normalizePath path ++ "/" ++ name
                 else root ++ "/" ++ normalizePath path ++ "/" ++ name)

/-- Result of `moveFileToProject`; the source returns `false` for the three
non-moved cases (distinguished here by which guard fired) and `true` after
a successful rename. -/
inductive MoveOutcome
  | invalid
  | escapes
  | ioFailure
  | moved (target : String)
deriving DecidableEq

/-- The boolean actually returned by the JavaScript function. -/
def MoveOutcome.toBool : MoveOutcome → Bool
  | MoveOutcome.moved _ => true
  | _ => false

/-- `moveFileToProject` (`main.js` lines 214-276): sanitize the segment and
reject empty/`.`/`..`-leading results; build and re-normalize the full
target path and reject it when it still escapes (`startsWith('../')`);
otherwise run the directory-creation/rename block, catching its failures. -/
def moveFileToProject (env : Env) (name path : String) (ifp : Bool) (root : String) :
    MoveOutcome × List FsReq :=
  let seg := normalizePath path
  if seg == "" || seg == "." || strStartsWith seg ".." then (MoveOutcome.invalid, [])
  else
    let target := plannedTarget name path root ifp
    if strStartsWith target "../" then (MoveOutcome.escapes, [])
    else
      match tryBlock env (folderOf target) target with
      | (Except.ok _, reqs) => (MoveOutcome.moved target, reqs)
      | (Except.error _, reqs) => (MoveOutcome.ioFailure, reqs)

/-- The four failure modes `processFile` reports by throwing. -/
inductive ProcErr
  | readFail
  | noTags
  | moveFail
  | noMatch
deriving DecidableEq

/-- `processFile` (`main.js` lines 138-212): read (possibly failing),
extract tags, fail on an empty tag list, resolve, move; a resolution with
no match and a failed move are each reported as a thrown error.  The second
component lists the filesystem requests issued. -/
def processFile (env : Env) (cfg : Config) (parse : String → FmTags)
    (read : Except Unit String) (fname : String) :
    Except ProcErr Unit × List FsReq :=
  match read with
  | Except.error _ => (Except.error ProcErr.readFail, [])
  | Except.ok content =>
    let tags := extractTags parse content
    if tags.isEmpty then (Except.error ProcErr.noTags, [])
    else
      match resolve cfg.tagRules cfg.tagPrefix tags with
      | some (dest, ifp) =>
        let m := moveFileToProject env fname dest ifp cfg.rootFolder
        ((if m.1.toBool then Except.ok () else Except.error ProcErr.moveFail), m.2)
      | none => (Except.error ProcErr.noMatch, [])

/-- A vault file as the batch sees it: its path and base name. -/
structure MFile where
  path : String
  name : String
deriving DecidableEq

/-- Whether `processFile` succeeds for a given file. -/
def procOk (env : Env) (cfg : Config) (parse : String → FmTags)
    (readOf : String → Except Unit String) (f : MFile) : Bool :=
  match (processFile env cfg parse (readOf f.path) f.name).1 with
  | Except.ok _ => true
  | Except.error _ => false

/-- One iteration of the batch loop (`main.js` lines 125-133): success
increments the first counter, a thrown error the second; the file is
recorded as attempted either way. -/
def batchStep (env : Env) (cfg : Config) (parse : String → FmTags)
    (readOf : String → Except Unit String) (acc : Nat × Nat × List String)
    (f : MFile) : Nat × Nat × List String :=
  match (processFile env cfg parse (readOf f.path) f.name).1 with
  | Except.ok _ => (acc.1 + 1, acc.2.1, acc.2.2 ++ [f.path])
  | Except.error _ => (acc.1, acc.2.1 + 1, acc.2.2 ++ [f.path])

/-- `moveAllFiles` (`main.js` lines 110-136): filter the vault's files by
`path.startsWith(notesFolder) && path.endsWith(".md")`, then process each
in order, counting successes and failures; also returns the list of
attempted paths. -/
def moveAllFiles (env : Env) (cfg : Config) (parse : String → FmTags)
    (readOf : String → Except Unit String) (files : List MFile) :
    Nat × Nat × List String :=
  let targets := files.filter
    (fun f => strStartsWith f.path cfg.notesFolder && strEndsWith f.path ".md")
  targets.foldl (batchStep env cfg parse readOf) (0, 0, [])

/-- An environment whose collaborators all succeed (and where no directory
pre-exists). -/
def okEnv : Env :=
  { pathExists := fun _ => Except.ok false
    mkdir := fun _ => Except.ok ()
    rename := fun _ => Except.ok () }

/-- An environment whose rename always fails. -/
def failRenameEnv : Env :=
  { pathExists := fun _ => Except.ok false
    mkdir := fun _ => Except.ok ()
    rename := fun _ => Except.error () }

/-- Concrete stand-in for the external YAML parser used in the worked
examples: it recognises the two frontmatter blocks appearing there. -/
def exParse : String → FmTags :=
  fun s =>
    if s = "tags: [a, b]" then FmTags.sequence ["a", "b"]
    else if s = "tags: [a, a]" then FmTags.sequence ["a", "a"]
    else FmTags.parseError

/-- Three-file vault used in the batch example: one file has no tags. -/
def exFiles : List MFile :=
  [⟨"02/notes/a.md", "a.md"⟩, ⟨"02/notes/b.md", "b.md"⟩, ⟨"02/notes/c.md", "c.md"⟩]

/-- Reader for `exFiles`: the middle file is empty (zero tags). -/
def exReadOf : String → Except Unit String :=
  fun p =>
    if p = "02/notes/a.md" then Except.ok "#pjt/a\n"
    else if p = "02/notes/b.md" then Except.ok ""
    else Except.ok "#pjt/c\n"

/-- Concrete stand-in for the external YAML parser in the pass-2
counterexample: the frontmatter block declares the scalar tag with two
leading hashes, of which extraction strips only one. -/
def exParseScalar : String → FmTags :=
  fun s =>
    if s = "tags: ##pjt/a" then FmTags.scalar "##pjt/a" else FmTags.parseError

/-! ## Helper lemmas -/

theorem dropWhile_head_false {α : Type} (p : α → Bool) :
    ∀ (l : List α) (c : α) (t : List α), l.dropWhile p = c :: t → p c = false := by
  intro l
  induction l with
  | nil => intro c t h; simp [List.dropWhile] at h
  | cons a as ih =>
    intro c t h
    rw [List.dropWhile_cons] at h
    by_cases ha : p a = true
    · rw [if_pos ha] at h
      exact ih c t h
    · rw [if_neg ha] at h
      cases h
      simpa using ha

theorem dropWhile_self_of_head {α : Type} (p : α → Bool) (c : α) (t : List α)
    (h : p c = false) : (c :: t).dropWhile p = c :: t := by
  rw [List.dropWhile_cons, if_neg (by simp [h])]

theorem dropWhile_drops {α : Type} (p : α → Bool) :
    ∀ l : List α, ∃ u : List α, u ++ l.dropWhile p = l := by
  intro l
  induction l with
  | nil => exact ⟨[], rfl⟩
  | cons a as ih =>
    rw [List.dropWhile_cons]
    by_cases ha : p a = true
    · rw [if_pos ha]
      obtain ⟨u, hu⟩ := ih
      exact ⟨a :: u, by simp [hu]⟩
    · rw [if_neg ha]
      exact ⟨[], rfl⟩

theorem normCore_head (l : List Char) (b : Char) (bs : List Char)
    (h : ((l.dropWhile isQuoteHashC).reverse.dropWhile isQuoteC).reverse = b :: bs) :
    isQuoteHashC b = false := by
  obtain ⟨u, hu⟩ := dropWhile_drops isQuoteC (l.dropWhile isQuoteHashC).reverse
  have h2 : l.dropWhile isQuoteHashC
      = ((l.dropWhile isQuoteHashC).reverse.dropWhile isQuoteC).reverse ++ u.reverse := by
    have h3 := congrArg List.reverse hu
    simpa [List.reverse_append] using h3.symm
  rw [h] at h2
  exact dropWhile_head_false isQuoteHashC l b (bs ++ u.reverse) (by simpa using h2)

theorem normCore_dropQH (l : List Char) :
    (((l.dropWhile isQuoteHashC).reverse.dropWhile isQuoteC).reverse).dropWhile isQuoteHashC
      = ((l.dropWhile isQuoteHashC).reverse.dropWhile isQuoteC).reverse := by
  cases hL : ((l.dropWhile isQuoteHashC).reverse.dropWhile isQuoteC).reverse with
  | nil => rfl
  | cons b bs => exact dropWhile_self_of_head isQuoteHashC b bs (normCore_head l b bs hL)

theorem normCore_dropQ (l : List Char) :
    (((((l.dropWhile isQuoteHashC).reverse.dropWhile isQuoteC).reverse).reverse).dropWhile
        isQuoteC).reverse
      = ((l.dropWhile isQuoteHashC).reverse.dropWhile isQuoteC).reverse := by
  rw [List.reverse_reverse]
  cases hC : (l.dropWhile isQuoteHashC).reverse.dropWhile isQuoteC with
  | nil => rfl
  | cons d ds =>
    rw [dropWhile_self_of_head isQuoteC d ds
      (dropWhile_head_false isQuoteC (l.dropWhile isQuoteHashC).reverse d ds hC)]

theorem normCore_stripHashL (l : List Char) :
    stripHashL (((l.dropWhile isQuoteHashC).reverse.dropWhile isQuoteC).reverse)
      = ((l.dropWhile isQuoteHashC).reverse.dropWhile isQuoteC).reverse := by
  cases hL : ((l.dropWhile isQuoteHashC).reverse.dropWhile isQuoteC).reverse with
  | nil => rfl
  | cons b bs =>
    have hb : isQuoteHashC b = false := normCore_head l b bs hL
    have hbn : ¬ b = '#' := by
      intro hx
      rw [hx] at hb
      exact absurd hb (by decide)
    show (if b = '#' then bs else b :: bs) = b :: bs
    rw [if_neg hbn]

theorem normalizeTagL_idem (l : List Char) :
    normalizeTagL (normalizeTagL l) = normalizeTagL l := by
  unfold normalizeTagL
  rw [normCore_stripHashL l, normCore_dropQH l, normCore_dropQ l, normCore_stripHashL l]

theorem find?_none {α : Type} (p : α → Bool) :
    ∀ l : List α, (∀ u ∈ l, p u = false) → List.find? p l = none := by
  intro l
  induction l with
  | nil => intro _; rfl
  | cons a as ih =>
    intro h
    have ha : p a = false := h a (by simp)
    rw [List.find?_cons, ha]
    exact ih (fun u hu => h u (by simp [hu]))

theorem find?_append_first {α : Type} (p : α → Bool) (x : α) :
    ∀ (l1 l2 : List α), (∀ u ∈ l1, p u = false) → p x = true →
      List.find? p (l1 ++ x :: l2) = some x := by
  intro l1
  induction l1 with
  | nil =>
    intro l2 _ hx
    rw [List.nil_append, List.find?_cons, hx]
  | cons a as ih =>
    intro l2 h hx
    have ha : p a = false := h a (by simp)
    rw [List.cons_append, List.find?_cons, ha]
    exact ih l2 (fun u hu => h u (by simp [hu])) hx

theorem findRuleFor_none (rules : List TagRule) (u : String)
    (h : ∀ q ∈ rules, stripHash q.tagPattern ≠ stripHash u) :
    findRuleFor rules u = none := by
  unfold findRuleFor
  exact find?_none _ rules (fun q hq => by
    have := h q hq
    simpa using this)

theorem ruleScan_none (rules : List TagRule) :
    ∀ ts : List String, (∀ u ∈ ts, findRuleFor rules u = none) →
      ruleScan rules ts = none := by
  intro ts
  induction ts with
  | nil => intro _; rfl
  | cons t ts ih =>
    intro h
    unfold ruleScan
    rw [h t (by simp)]
    exact ih (fun u hu => h u (by simp [hu]))

theorem ruleScan_append (rules : List TagRule) (ts1 : List String) (t : String)
    (ts2 : List String) (r : TagRule)
    (h1 : ∀ u ∈ ts1, findRuleFor rules u = none)
    (ht : findRuleFor rules t = some r) :
    ruleScan rules (ts1 ++ t :: ts2) = some r.destination := by
  induction ts1 with
  | nil =>
    rw [List.nil_append]
    unfold ruleScan
    rw [ht]
  | cons a as ih =>
    rw [List.cons_append]
    unfold ruleScan
    rw [h1 a (by simp)]
    exact ih (fun u hu => h1 u (by simp [hu]))

theorem length_filter_split {α : Type} (p : α → Bool) :
    ∀ l : List α, (l.filter p).length + (l.filter (fun x => !p x)).length = l.length := by
  intro l
  induction l with
  | nil => rfl
  | cons a as ih =>
    by_cases ha : p a = true
    · simp [List.filter_cons, ha]
      omega
    · have ha2 : p a = false := by simpa using ha
      simp [List.filter_cons, ha2]
      omega

theorem batchStep_eq_ok (env : Env) (cfg : Config) (parse : String → FmTags)
    (readOf : String → Except Unit String) (a : Nat × Nat × List String) (f : MFile)
    (v : Unit) (h : (processFile env cfg parse (readOf f.path) f.name).1 = Except.ok v) :
    batchStep env cfg parse readOf a f = (a.1 + 1, a.2.1, a.2.2 ++ [f.path]) := by
  unfold batchStep
  rw [h]

theorem batchStep_eq_err (env : Env) (cfg : Config) (parse : String → FmTags)
    (readOf : String → Except Unit String) (a : Nat × Nat × List String) (f : MFile)
    (e : ProcErr) (h : (processFile env cfg parse (readOf f.path) f.name).1 = Except.error e) :
    batchStep env cfg parse readOf a f = (a.1, a.2.1 + 1, a.2.2 ++ [f.path]) := by
  unfold batchStep
  rw [h]

theorem batch_fold (env : Env) (cfg : Config) (parse : String → FmTags)
    (readOf : String → Except Unit String) :
    ∀ (l : List MFile) (a : Nat × Nat × List String),
      l.foldl (batchStep env cfg parse readOf) a
        = (a.1 + (l.filter (procOk env cfg parse readOf)).length,
           a.2.1 + (l.filter (fun f => !procOk env cfg parse readOf f)).length,
           a.2.2 ++ l.map MFile.path) := by
  intro l
  induction l with
  | nil => intro a; simp
  | cons f fs ih =>
    intro a
    rw [List.foldl_cons, ih]
    cases h : (processFile env cfg parse (readOf f.path) f.name).1 with
    | ok v =>
      have hok : procOk env cfg parse readOf f = true := by
        unfold procOk
        rw [h]
      rw [batchStep_eq_ok env cfg parse readOf a f v h]
      refine Prod.ext ?_ (Prod.ext ?_ ?_)
      · simp [List.filter_cons, hok]
        omega
      · simp [List.filter_cons, hok]
      · simp [List.append_assoc]
    | error e =>
      have hok : procOk env cfg parse readOf f = false := by
        unfold procOk
        rw [h]
      rw [batchStep_eq_err env cfg parse readOf a f e h]
      refine Prod.ext ?_ (Prod.ext ?_ ?_)
      · simp [List.filter_cons, hok]
      · simp [List.filter_cons, hok]
        omega
      · simp [List.append_assoc]

theorem moveAllFiles_spec (env : Env) (cfg : Config) (parse : String → FmTags)
    (readOf : String → Except Unit String) (files : List MFile) :
    moveAllFiles env cfg parse readOf files
      = (((files.filter (fun f => strStartsWith f.path cfg.notesFolder
              && strEndsWith f.path ".md")).filter (procOk env cfg parse readOf)).length,
         ((files.filter (fun f => strStartsWith f.path cfg.notesFolder
              && strEndsWith f.path ".md")).filter
            (fun f => !procOk env cfg parse readOf f)).length,
         (files.filter (fun f => strStartsWith f.path cfg.notesFolder
              && strEndsWith f.path ".md")).map MFile.path) := by
  unfold moveAllFiles
  rw [batch_fold]
  simp

/-! ## Claim theorems -/

/-- C8: tag normalization (stripping the leading run of quote and hash
characters, the trailing run of quote characters, and one more leading
hash) is idempotent: normalizing an already-normalized tag yields the same
tag. -/
theorem C8_normalize_idempotent (s : String) :
    normalizeTag (normalizeTag s) = normalizeTag s := by
  unfold normalizeTag
  rw [show (String.mk (normalizeTagL s.toList)).toList = normalizeTagL s.toList from rfl]
  rw [normalizeTagL_idem]

/-- C1 counterexample: the claim says the candidate tag is normalized with
quotes stripped as well, so the candidate tag made of `work/urgent`
surrounded by double quotes would match the rule for `work/urgent` and
resolution would return its destination with isFullPath true.  The code
strips only a single leading hash from the candidate in this pass, so the
quoted candidate matches no rule and no tag starts with the fallback
tag-prefix either: resolution returns none. -/
theorem C1_counterexample :
    normalizeTag "\"work/urgent\"" = stripHash "work/urgent"
    ∧ resolve [⟨"work/urgent", "01_inbox/urgent"⟩] "#pjt/" ["\"work/urgent\""] = none := by
  constructor
  · decide
  · decide

/-- C1 (amended): rule resolution pass 1 is a nested double-scan, tags
outer and rules inner: with every tag before `t` matching no rule, and `r`
the first rule in table order whose pattern (after a single leading hash is
stripped from both the pattern and the candidate; quotes are not stripped
in this pass) equals the normalized candidate `t`, resolution returns
`(r.destination, isFullPath = true)` — so an earlier tag matching a later
rule beats a later tag matching an earlier rule. -/
theorem C1_pass1_exact_match (tags1 tags2 : List String) (t : String)
    (rules1 rules2 : List TagRule) (r : TagRule) (pre : String)
    (h1 : ∀ u ∈ tags1, ∀ q ∈ rules1 ++ r :: rules2, stripHash q.tagPattern ≠ stripHash u)
    (h2 : ∀ q ∈ rules1, stripHash q.tagPattern ≠ stripHash t)
    (h3 : stripHash r.tagPattern = stripHash t) :
    resolve (rules1 ++ r :: rules2) pre (tags1 ++ t :: tags2)
      = some (r.destination, true) := by
  unfold resolve
  rw [ruleScan_append (rules1 ++ r :: rules2) tags1 t tags2 r
    (fun u hu => findRuleFor_none _ u (h1 u hu))
    (by
      unfold findRuleFor
      exact find?_append_first _ r rules1 rules2
        (fun q hq => by simpa using h2 q hq) (by simpa using h3))]

/-- C1 witness: the first detected tag matches the second rule of the
default table while the second tag matches the first rule; resolution
follows the first tag. -/
theorem C1_pass1_witness :
    resolve DEFAULT_SETTINGS.tagRules "#pjt/" ["personal/health", "work/urgent"]
      = some ("04_personal/health", true) := by
  have h := C1_pass1_exact_match [] ["work/urgent"] "personal/health"
    [⟨"work/urgent", "01_inbox/urgent"⟩] [] ⟨"personal/health", "04_personal/health"⟩ "#pjt/"
    (by intro u hu; cases hu)
    (by
      intro q hq
      have : q = (⟨"work/urgent", "01_inbox/urgent"⟩ : TagRule) := by simpa using hq
      rw [this]
      decide)
    (by decide)
  simpa using h

/-- C3 counterexample: the candidate tag `#pjt/a` is reachable — the
frontmatter scalar `##pjt/a` has only one leading hash stripped at
extraction — and its normalized form `pjt/a` starts with the normalized
tag-prefix, so the claim promises the fallback destination `a`; but pass 2
compares the raw candidate against the normalized prefix, finds no match,
and resolution returns none: the file is reported as a no-matching-tag
failure. -/
theorem C3_counterexample :
    extractTags exParseScalar "---\ntags: ##pjt/a\n---\n" = ["#pjt/a"]
    ∧ strStartsWith (stripHash "#pjt/a") (stripHash "#pjt/") = true
    ∧ resolve DEFAULT_SETTINGS.tagRules "#pjt/" ["#pjt/a"] = none
    ∧ processFile okEnv DEFAULT_SETTINGS exParseScalar
        (Except.ok "---\ntags: ##pjt/a\n---\n") "x.md"
        = (Except.error ProcErr.noMatch, []) := by
  refine ⟨by decide, by decide, by decide, by rfl⟩

/-- C3 (amended): the prefix fallback runs only when pass 1 matched no rule
(no tag has a matching rule); the first candidate tag that itself starts
with the normalized tag-prefix — tags are compared raw, exactly as produced
by extraction, with no further normalization in this pass — yields the tag
text after the prefix, with isFullPath false; when additionally no tag
starts with the normalized tag-prefix, resolution returns none and
`processFile` reports the file as a no-matching-tag failure with no
filesystem request issued. -/
theorem C3_fallback_and_failure :
    (∀ (rules : List TagRule) (pre t : String) (tags1 tags2 : List String),
      (∀ u ∈ tags1 ++ t :: tags2, findRuleFor rules u = none) →
      (∀ u ∈ tags1, strStartsWith u (stripHash pre) = false) →
      strStartsWith t (stripHash pre) = true →
      resolve rules pre (tags1 ++ t :: tags2)
        = some (strDrop t (strLen (stripHash pre)), false))
    ∧ (∀ (rules : List TagRule) (pre : String) (tags : List String),
      (∀ u ∈ tags, findRuleFor rules u = none) →
      (∀ u ∈ tags, strStartsWith u (stripHash pre) = false) →
      resolve rules pre tags = none)
    ∧ (∀ (env : Env) (cfg : Config) (parse : String → FmTags) (content fname : String),
      extractTags parse content ≠ [] →
      resolve cfg.tagRules cfg.tagPrefix (extractTags parse content) = none →
      processFile env cfg parse (Except.ok content) fname
        = (Except.error ProcErr.noMatch, [])) := by
  refine ⟨?_, ?_, ?_⟩
  · intro rules pre t tags1 tags2 hrule hmiss ht
    have hf := find?_append_first (fun u => strStartsWith u (stripHash pre)) t tags1 tags2
      hmiss ht
    unfold resolve
    rw [ruleScan_none rules (tags1 ++ t :: tags2) hrule]
    simp [hf]
  · intro rules pre tags hrule hmiss
    have hf := find?_none (fun u => strStartsWith u (stripHash pre)) tags hmiss
    unfold resolve
    rw [ruleScan_none rules tags hrule]
    simp [hf]
  · intro env cfg parse content fname hne hres
    cases hx : extractTags parse content with
    | nil => exact absurd hx hne
    | cons a as =>
      rw [hx] at hres
      simp [processFile, hx, hres]

/-- C3 witness: with an empty rule table, the tag `random` does not start
with the prefix but `pjt/alpha/beta` does, so the fallback yields
`alpha/beta` with isFullPath false; and a file whose only tag matches
neither a rule nor the prefix is reported as a no-matching-tag failure
with no filesystem requests. -/
theorem C3_fallback_witness :
    resolve [] "#pjt/" ["random", "pjt/alpha/beta"] = some ("alpha/beta", false)
    ∧ processFile okEnv DEFAULT_SETTINGS exParse (Except.ok "random\n") "x.md"
        = (Except.error ProcErr.noMatch, []) := by
  constructor
  · have h := C3_fallback_and_failure.1 [] "#pjt/" "pjt/alpha/beta" ["random"] []
      (by intro u hu; rfl)
      (by
        intro u hu
        have : u = "random" := by simpa using hu
        rw [this]
        decide)
      (by decide)
    simpa using h
  · exact C3_fallback_and_failure.2.2 okEnv DEFAULT_SETTINGS exParse "random\n" "x.md"
      (by decide) (by decide)

/-- C4: extraction yields all frontmatter tags first (in source order, a
scalar treated as a one-element sequence, elements taken as strings),
followed by all body tags in scan order, with no deduplication; in
particular frontmatter `tags: [a, b]` with body `#c d` yields
`[a, b, c, d]`, and duplicated tags are all preserved. -/
theorem C4_extraction_order :
    (∀ (parse : String → FmTags) (content block rest : String),
      fmMatch content = some (block, rest) →
      extractTags parse content = fmTagList (parse block) ++ bodyTags rest)
    ∧ extractTags exParse "---\ntags: [a, b]\n---\n#c d" = ["a", "b", "c", "d"]
    ∧ extractTags exParse "---\ntags: [a, a]\n---\na a" = ["a", "a", "a", "a"] := by
  refine ⟨?_, by decide, by decide⟩
  intro parse content block rest h
  simp [extractTags, h]

/-- C4 witness: the general decomposition applied to the example document. -/
theorem C4_extraction_witness :
    extractTags exParse "---\ntags: [a, b]\n---\n#c d"
      = fmTagList (exParse "tags: [a, b]") ++ bodyTags "\n#c d" :=
  C4_extraction_order.1 exParse "---\ntags: [a, b]\n---\n#c d" "tags: [a, b]" "\n#c d"
    (by decide)

/-- C7: when the frontmatter block is present but its content fails to
parse, extraction degrades to zero frontmatter tags and the body is still
scanned (no exception escapes: the result is the total body scan); when the
opening dashes are never closed, no frontmatter is detected and the entire
text is treated as body.  Concretely, an unterminated block yields no
frontmatter match, and a malformed-but-terminated block still produces the
body tags. -/
theorem C7_malformed_frontmatter :
    (∀ (parse : String → FmTags) (content block rest : String),
      fmMatch content = some (block, rest) → parse block = FmTags.parseError →
      extractTags parse content = bodyTags rest)
    ∧ (∀ (parse : String → FmTags) (content : String),
      fmMatch content = none → extractTags parse content = bodyTags content)
    ∧ fmMatch "---\ntags: [a\nbody text" = none
    ∧ extractTags (fun _ => FmTags.parseError) "---\nbad: [\n---\n#c d" = ["c", "d"] := by
  refine ⟨?_, ?_, by decide, by decide⟩
  · intro parse content block rest h hp
    simp [extractTags, h, hp, fmTagList]
  · intro parse content h
    simp [extractTags, h]

/-- C7 witness: the degradation law applied to a concrete malformed
frontmatter block. -/
theorem C7_malformed_witness :
    extractTags (fun _ => FmTags.parseError) "---\nbad: [\n---\n#c d" = bodyTags "\n#c d" :=
  C7_malformed_frontmatter.1 (fun _ => FmTags.parseError) "---\nbad: [\n---\n#c d"
    "bad: [" "\n#c d" (by decide) rfl

/-- C2: before any directory creation or rename the destination segment is
sanitized: when the normalized segment is empty, is exactly a dot, or
begins with a parent-directory traversal, the move is rejected as invalid;
otherwise, when the full path obtained by joining the segment with its base
directory and re-normalizing still begins with a traversal segment, the
move is rejected as escaping.  In either case no filesystem request at all
(in particular no directory creation and no rename) is issued, so the file
stays where it is. -/
theorem C2_sanitize_rejects (env : Env) (root name path : String) (ifp : Bool) :
    ((normalizePath path == "" || normalizePath path == "."
        || strStartsWith (normalizePath path) "..") = true →
      moveFileToProject env name path ifp root = (MoveOutcome.invalid, []))
    ∧ ((normalizePath path == "" || normalizePath path == "."
        || strStartsWith (normalizePath path) "..") = false →
      strStartsWith (plannedTarget name path root ifp) "../" = true →
      moveFileToProject env name path ifp root = (MoveOutcome.escapes, [])) := by
  constructor
  · intro h
    simp [moveFileToProject, h]
  · intro h1 h2
    simp [moveFileToProject, h1, h2]

/-- C2 witness: a pure traversal segment is rejected as invalid with no
requests; a clean segment joined under a traversal base directory is
rejected as escaping with no requests. -/
theorem C2_sanitize_witness :
    moveFileToProject okEnv "x.md" "../../etc" false "03_project" = (MoveOutcome.invalid, [])
    ∧ moveFileToProject okEnv "x.md" "proj" false ".." = (MoveOutcome.escapes, []) :=
  ⟨(C2_sanitize_rejects okEnv "03_project" "x.md" "../../etc" false).1 (by decide),
   (C2_sanitize_rejects okEnv ".." "x.md" "proj" false).2 (by decide) (by decide)⟩

/-- C9: the per-file move is total with respect to collaborator failures:
whenever the directory-existence check, the directory creation, or the
rename fails (the try block errors), the function returns the boolean
false (no exception propagates); and it returns true (a moved outcome)
only when the try block ran and succeeded. -/
theorem C9_move_total (env : Env) (name path root : String) (ifp : Bool) :
    (∀ e : Unit,
      (tryBlock env (folderOf (plannedTarget name path root ifp))
          (plannedTarget name path root ifp)).1 = Except.error e →
      MoveOutcome.toBool (moveFileToProject env name path ifp root).1 = false)
    ∧ (∀ t : String,
      (moveFileToProject env name path ifp root).1 = MoveOutcome.moved t →
      t = plannedTarget name path root ifp
        ∧ (tryBlock env (folderOf t) t).1 = Except.ok ()) := by
  constructor
  · intro e he
    by_cases h1 : (normalizePath path == "" || normalizePath path == "."
        || strStartsWith (normalizePath path) "..") = true
    · simp [moveFileToProject, h1, MoveOutcome.toBool]
    · have h1f : (normalizePath path == "" || normalizePath path == "."
          || strStartsWith (normalizePath path) "..") = false := by
        simpa using h1
      by_cases h2 : strStartsWith (plannedTarget name path root ifp) "../" = true
      · simp [moveFileToProject, h1f, h2, MoveOutcome.toBool]
      · have h2f : strStartsWith (plannedTarget name path root ifp) "../" = false := by
          simpa using h2
        rcases htb : tryBlock env (folderOf (plannedTarget name path root ifp))
            (plannedTarget name path root ifp) with ⟨res, reqs⟩
        rw [htb] at he
        cases res with
        | ok v => simp at he
        | error e2 =>
          simp [moveFileToProject, h1f, h2f, htb, MoveOutcome.toBool]
  · intro t ht
    by_cases h1 : (normalizePath path == "" || normalizePath path == "."
        || strStartsWith (normalizePath path) "..") = true
    · simp [moveFileToProject, h1] at ht
    · have h1f : (normalizePath path == "" || normalizePath path == "."
          || strStartsWith (normalizePath path) "..") = false := by
        simpa using h1
      by_cases h2 : strStartsWith (plannedTarget name path root ifp) "../" = true
      · simp [moveFileToProject, h1f, h2] at ht
      · have h2f : strStartsWith (plannedTarget name path root ifp) "../" = false := by
          simpa using h2
        rcases htb : tryBlock env (folderOf (plannedTarget name path root ifp))
            (plannedTarget name path root ifp) with ⟨res, reqs⟩
        cases res with
        | ok v =>
          simp [moveFileToProject, h1f, h2f, htb] at ht
          subst ht
          exact ⟨rfl, by rw [htb]⟩
        | error e2 =>
          simp [moveFileToProject, h1f, h2f, htb] at ht

/-- C9 witness: with a rename collaborator that always fails, the move
returns false rather than propagating the failure. -/
theorem C9_move_witness :
    MoveOutcome.toBool (moveFileToProject failRenameEnv "x.md" "q1" false "03_project").1
      = false :=
  (C9_move_total failRenameEnv "x.md" "q1" "03_project" false).1 () (by rfl)

/-- C6: the final target path is built by appending the file's base name to
the resolved destination — `targetDirectory/baseName` when isFullPath and
`rootFolder/targetDirectory/baseName` otherwise (whenever joining the clean
components introduces nothing for normalization to change, the rename
target is exactly that concatenation); and end to end, a document at
`02/notes/x.md` (which passes the batch filter) whose body contains tag
`pjt/q1`, under the default configuration with rootFolder `03_project`, is
moved by a rename request to `03_project/q1/x.md`. -/
theorem C6_target_construction :
    (∀ (env : Env) (name dest root C : String) (ifp : Bool),
      C = (if ifp then dest ++ "/" ++ name else root ++ "/" ++ dest ++ "/" ++ name) →
      normalizePath dest = dest →
      (dest == "" || dest == "." || strStartsWith dest "..") = false →
      normalizePath C = C →
      strStartsWith C "../" = false →
      moveFileToProject env name dest ifp root
        = ((match (tryBlock env (folderOf C) C).1 with
            | Except.ok _ => MoveOutcome.moved C
            | Except.error _ => MoveOutcome.ioFailure),
           (tryBlock env (folderOf C) C).2))
    ∧ processFile okEnv DEFAULT_SETTINGS exParse (Except.ok "#pjt/q1\n") "x.md"
        = (Except.ok (), [FsReq.existsReq "03_project/q1", FsReq.mkdirReq "03_project/q1",
                          FsReq.renameReq "03_project/q1/x.md"])
    ∧ (strStartsWith "02/notes/x.md" "02/notes" && strEndsWith "02/notes/x.md" ".md")
        = true := by
  refine ⟨?_, by rfl, by decide⟩
  intro env name dest root C ifp hC hnp hok hCn hesc
  have hplan : plannedTarget name dest root ifp = C := by
    unfold plannedTarget
    rw [hnp, ← hC, hCn]
  rcases htb : tryBlock env (folderOf C) C with ⟨res, reqs⟩
  cases res with
  | ok v => simp [moveFileToProject, hnp, hok, hplan, hesc, htb]
  | error e => simp [moveFileToProject, hnp, hok, hplan, hesc, htb]

/-- C6 witness: the construction law applied to the concrete resolved
destination `q1` under root `03_project` with base name `x.md`. -/
theorem C6_target_witness :
    moveFileToProject okEnv "x.md" "q1" false "03_project"
      = ((match (tryBlock okEnv (folderOf "03_project/q1/x.md") "03_project/q1/x.md").1 with
          | Except.ok _ => MoveOutcome.moved "03_project/q1/x.md"
          | Except.error _ => MoveOutcome.ioFailure),
         (tryBlock okEnv (folderOf "03_project/q1/x.md") "03_project/q1/x.md").2) :=
  C6_target_construction.1 okEnv "x.md" "q1" "03_project" "03_project/q1/x.md" false
    (by decide) (by decide) (by decide) (by decide) (by decide)

/-- C5: the batch over the filtered file list processes every filtered file
independently — the attempted list is exactly the filtered list regardless
of outcomes, so one file's failure never prevents subsequent files; each
file is counted exactly once, succeeded plus failed equals the number of
filtered files; and a file whose extraction yields zero tags is counted as
a no-tags failure. -/
theorem C5_batch_counts (env : Env) (cfg : Config) (parse : String → FmTags)
    (readOf : String → Except Unit String) (files : List MFile) :
    moveAllFiles env cfg parse readOf files
      = (((files.filter (fun f => strStartsWith f.path cfg.notesFolder
              && strEndsWith f.path ".md")).filter (procOk env cfg parse readOf)).length,
         ((files.filter (fun f => strStartsWith f.path cfg.notesFolder
              && strEndsWith f.path ".md")).filter
            (fun f => !procOk env cfg parse readOf f)).length,
         (files.filter (fun f => strStartsWith f.path cfg.notesFolder
              && strEndsWith f.path ".md")).map MFile.path)
    ∧ (moveAllFiles env cfg parse readOf files).1
        + (moveAllFiles env cfg parse readOf files).2.1
      = (files.filter (fun f => strStartsWith f.path cfg.notesFolder
            && strEndsWith f.path ".md")).length
    ∧ (∀ (content fname : String), extractTags parse content = [] →
        processFile env cfg parse (Except.ok content) fname
          = (Except.error ProcErr.noTags, [])) := by
  refine ⟨moveAllFiles_spec env cfg parse readOf files, ?_, ?_⟩
  · rw [moveAllFiles_spec env cfg parse readOf files]
    exact length_filter_split (procOk env cfg parse readOf)
      (files.filter (fun f => strStartsWith f.path cfg.notesFolder
        && strEndsWith f.path ".md"))
  · intro content fname hx
    simp [processFile, hx]

/-- C5 witness: a three-file batch in which the middle file has zero tags
reports two successes and one failure, all three files being attempted; the
zero-tag file is the no-tags failure. -/
theorem C5_batch_witness :
    moveAllFiles okEnv DEFAULT_SETTINGS exParse exReadOf exFiles
      = (2, 1, ["02/notes/a.md", "02/notes/b.md", "02/notes/c.md"])
    ∧ processFile okEnv DEFAULT_SETTINGS exParse (Except.ok "") "b.md"
        = (Except.error ProcErr.noTags, []) :=
  ⟨by rfl,
   (C5_batch_counts okEnv DEFAULT_SETTINGS exParse exReadOf exFiles).2.2 "" "b.md" (by rfl)⟩

/-- C10: the batch filter compares raw string prefixes, not path
components: every file whose path string starts with the configured notes
folder text and ends with the Markdown extension is included among the
attempted files. -/
theorem C10_raw_string_filter (env : Env) (cfg : Config) (parse : String → FmTags)
    (readOf : String → Except Unit String) (files : List MFile) (f : MFile)
    (hmem : f ∈ files)
    (h1 : strStartsWith f.path cfg.notesFolder = true)
    (h2 : strEndsWith f.path ".md" = true) :
    f.path ∈ (moveAllFiles env cfg parse readOf files).2.2 := by
  rw [moveAllFiles_spec env cfg parse readOf files]
  exact List.mem_map_of_mem MFile.path (List.mem_filter.mpr ⟨hmem, by simp [h1, h2]⟩)

/-- C10 witness: with notes folder `02/notes`, the sibling-folder file
`02/notesarchive/x.md` is attempted by the batch. -/
theorem C10_sibling_witness :
    "02/notesarchive/x.md" ∈ (moveAllFiles okEnv DEFAULT_SETTINGS exParse
      (fun _ => Except.ok "") [⟨"02/notesarchive/x.md", "x.md"⟩]).2.2 :=
  C10_raw_string_filter okEnv DEFAULT_SETTINGS exParse (fun _ => Except.ok "")
    [⟨"02/notesarchive/x.md", "x.md"⟩] ⟨"02/notesarchive/x.md", "x.md"⟩
    (by simp) (by decide) (by decide)
